import Mathlib

/-!
Shallow embedding of the golcs LCS library (src/golcs.go).

The library computes the longest common subsequence of two slices:
a DP table (`TableContext`), its bottom-right entry (`LengthContext`),
a backtracking reconstruction of matched index pairs
(`IndexPairsContext`), and the projection of those pairs onto the left
slice (`ValuesContext`).  Each operation is memoized on a session
value, and each has a context-aware form that observes a cancellation
signal once per outer loop iteration of the table construction.

Modelling choices:
* Slices become `List α`; `reflect.DeepEqual` on comparable elements is
  structural equality, modelled by `=` with `[DecidableEq α]`.
* Go's in-range index access `s[i]` is modelled by `List.getD i default`
  with `[Inhabited α]` (Go element types always have a zero value); all
  accesses performed by the code are proved in range, so the default is
  never observable.
* A `context.Context`'s Done status over the run is a function
  `Nat → Bool` giving the observed status at the check done for each
  outer-loop index `y`; `context.Background()` is `fun _ => false`.
* The mutated `*lcs` receiver becomes explicit state passing: every
  entry point returns its result together with the updated session.
* The table fill loop writes `table[x][y]` only from entries already in
  their final state (`table[x-1][y-1]`, `table[x][y-1]` from earlier
  outer iterations, `table[x-1][y]` from an earlier inner iteration,
  row 0 and column 0 never written), so the finished table is the
  unique solution of the recurrence of the loop body; `lcsFn` is that
  recurrence written as structural recursion (outer on `x`, inner on
  `y`), and `buildTable` materializes the `(m+1) × (n+1)` grid.
-/

namespace Golcs

/-- Structure `IndexPair` from src/golcs.go: a pair of indices into the Left and
Right arrays found in the LCS value. -/
structure IndexPair where
  Left : Nat
  Right : Nat
deriving DecidableEq, Repr

/-- The only error the library can return: `ctx.Err()` after the
cancellation signal fired. -/
inductive GoError where
  | cancelled
deriving DecidableEq, Repr

/-- The Done status of a `context.Context` as observed by the check the
table loop performs at outer index `y`. -/
def Context : Type := Nat → Bool

/-- Model of `context.Background()`: a signal that never fires. -/
def background : Context := fun _ => false

/-- A signal that has already fired before the call. -/
def fired : Context := fun _ => true

/-- The `lcs` struct from src/golcs.go: the two input slices plus the
three memoization fields (`nil` ↦ `none`). -/
structure Session (α : Type) where
  left : List α
  right : List α
  table : Option (List (List Nat))
  indexPairs : Option (List IndexPair)
  values : Option (List α)
deriving DecidableEq, Repr

/-- Constructor `New(left, right)`: a fresh session with an empty cache. -/
def New {α : Type} (left right : List α) : Session α :=
  { left := left, right := right, table := none, indexPairs := none, values := none }

section Model

variable {α : Type} [DecidableEq α] [Inhabited α]

/-- Inner loop of the table fill (src/golcs.go lines 83-89), one row at
a time: given `prev = table[x][·]` this computes `table[x+1][·]`.
`table[x+1][y+1] = max(table[x][y] + increment, table[x][y+1],
table[x+1][y])` where `increment` is 1 exactly when `left[x]` and
`right[y]` are deep-equal. -/
def lcsRow (left right : List α) (prev : Nat → Nat) (x : Nat) : Nat → Nat
  | 0 => 0
  | y + 1 =>
    let increment := if left.getD x default = right.getD y default then 1 else 0
    max (prev y + increment) (max (prev (y + 1)) (lcsRow left right prev x y))

/-- The finished DP table of `TableContext` as a function of the two
indices: row 0 and column 0 are 0, and the interior satisfies the loop
body recurrence of src/golcs.go line 88. -/
def lcsFn (left right : List α) : Nat → Nat → Nat
  | 0 => fun _ => 0
  | x + 1 => lcsRow left right (lcsFn left right x) x

/-- The `(len(left)+1) × (len(right)+1)` table slice allocated and
filled by `TableContext` (src/golcs.go lines 68-90). -/
def buildTable (left right : List α) : List (List Nat) :=
  (List.range (left.length + 1)).map fun x =>
    (List.range (right.length + 1)).map fun y => lcsFn left right x y

/-- Go's `table[x][y]` on the materialized table. -/
def lookup2 (t : List (List Nat)) (x y : Nat) : Nat :=
  (t.getD x []).getD y 0

/-- The `select`/`ctx.Done()` checks of the outer loop (src/golcs.go
lines 76-82): the first outer index `y ∈ [1, n]` at which the signal is
observed fired, if any. -/
def firstCancel (ctx : Context) (n : Nat) : Option Nat :=
  (List.range' 1 n).find? fun y => ctx y

/-- Method `TableContext` (src/golcs.go lines 63-94): return the cached table
if present; otherwise fail with `ctx.Err()` if the signal fires at one
of the per-`y` checks (discarding the partial table), else build, cache
and return the full table. -/
def TableContext (ctx : Context) (s : Session α) :
    Except GoError (List (List Nat)) × Session α :=
  match s.table with
  | some t => (Except.ok t, s)
  | none =>
    match firstCancel ctx s.right.length with
    | some _ => (Except.error GoError.cancelled, s)
    | none =>
      let t := buildTable s.left s.right
      (Except.ok t, { s with table := some t })

/-- Method `Table` (src/golcs.go lines 57-60): run `TableContext` with the
background context and discard the (impossible) error. -/
def Table (s : Session α) : List (List Nat) × Session α :=
  match TableContext background s with
  | (Except.ok t, s') => (t, s')
  | (Except.error _, s') => ([], s')

/-- Method `LengthContext` (src/golcs.go lines 103-109): the bottom-right
entry `table[len(left)][len(right)]` of the table. -/
def LengthContext (ctx : Context) (s : Session α) : Except GoError Nat × Session α :=
  match TableContext ctx s with
  | (Except.error e, s') => (Except.error e, s')
  | (Except.ok t, s') => (Except.ok (lookup2 t s'.left.length s'.right.length), s')

/-- Method `Length` (src/golcs.go lines 97-100). -/
def Length (s : Session α) : Nat × Session α :=
  match LengthContext background s with
  | (Except.ok v, s') => (v, s')
  | (Except.error _, s') => (0, s')

/-- Inner loop of the backtracking walk of `IndexPairsContext`
(src/golcs.go lines 130-142), phrased so that the recursion is
structural: `prev` is the walk continued after `x` is decremented.
State `(x+1, y+1)` is the loop with `x = x+1, y = y+1`:
on a match record the pair at slot `table[x+1][y+1] - 1` and decrement
both indices; otherwise decrement `x` when `table[x][y+1] ≥
table[x+1][y]` and `y` otherwise; stop when either index hits 0. -/
def backtrackRow (left right : List α) (tl : Nat → Nat → Nat)
    (prev : Nat → List IndexPair → List IndexPair) (x : Nat) :
    Nat → List IndexPair → List IndexPair
  | 0, pairs => pairs
  | y + 1, pairs =>
    if left.getD x default = right.getD y default then
      prev y (pairs.set (tl (x + 1) (y + 1) - 1) ⟨x, y⟩)
    else if tl x (y + 1) ≥ tl (x + 1) y then
      prev (y + 1) pairs
    else
      backtrackRow left right tl prev x y pairs

/-- The backtracking walk of `IndexPairsContext` started at `(x, y)`
with result buffer `pairs`. -/
def backtrackFn (left right : List α) (tl : Nat → Nat → Nat) :
    Nat → Nat → List IndexPair → List IndexPair
  | 0 => fun _ pairs => pairs
  | x + 1 => backtrackRow left right tl (backtrackFn left right tl x) x

/-- Method `IndexPairsContext` (src/golcs.go lines 118-147): return the cached
pairs if present; otherwise obtain the table, allocate a buffer of
length `table[len(table)-1][len(table[0])-1]` of zero `IndexPair`s (the
Go zero value), run the backtracking walk from
`(len(left), len(right))`, cache and return the result. -/
def IndexPairsContext (ctx : Context) (s : Session α) :
    Except GoError (List IndexPair) × Session α :=
  match s.indexPairs with
  | some p => (Except.ok p, s)
  | none =>
    match TableContext ctx s with
    | (Except.error e, s') => (Except.error e, s')
    | (Except.ok t, s') =>
      let buf := List.replicate (lookup2 t (t.length - 1) ((t.getD 0 []).length - 1))
        (⟨0, 0⟩ : IndexPair)
      let pairs := backtrackFn s'.left s'.right (lookup2 t) s'.left.length s'.right.length buf
      (Except.ok pairs, { s' with indexPairs := some pairs })

/-- Method `IndexPairs` (src/golcs.go lines 112-115). -/
def IndexPairs (s : Session α) : List IndexPair × Session α :=
  match IndexPairsContext background s with
  | (Except.ok p, s') => (p, s')
  | (Except.error _, s') => ([], s')

/-- Method `ValuesContext` (src/golcs.go lines 156-173): return the cached
values if present; otherwise obtain the pairs, map each pair `p` to
`left[p.Left]`, cache and return the result. -/
def ValuesContext (ctx : Context) (s : Session α) : Except GoError (List α) × Session α :=
  match s.values with
  | some v => (Except.ok v, s)
  | none =>
    match IndexPairsContext ctx s with
    | (Except.error e, s') => (Except.error e, s')
    | (Except.ok pairs, s') =>
      let values := pairs.map fun p => s'.left.getD p.Left default
      (Except.ok values, { s' with values := some values })

/-- Method `Values` (src/golcs.go lines 150-153). -/
def Values (s : Session α) : List α × Session α :=
  match ValuesContext background s with
  | (Except.ok v, s') => (v, s')
  | (Except.error _, s') => ([], s')

/-- Method `Left` (src/golcs.go lines 176-179). -/
def Left (s : Session α) : List α := s.left

/-- Method `Right` (src/golcs.go lines 182-185). -/
def Right (s : Session α) : List α := s.right

/-- The matched pairs the backtracking walk started at `(x, y)` records,
listed in ascending order; proved below to be exactly the buffer
`backtrackFn` returns.  Same branch structure as the walk, but the pair
is appended instead of being written at slot `table[x][y] - 1`. -/
def gather (left right : List α) : Nat → Nat → List IndexPair
  | x + 1, y + 1 =>
    if left.getD x default = right.getD y default then
      gather left right x y ++ [⟨x, y⟩]
    else if lcsFn left right x (y + 1) ≥ lcsFn left right (x + 1) y then
      gather left right x (y + 1)
    else
      gather left right (x + 1) y
  | _, _ => []
termination_by x y => x + y

end Model

section SpecSide

variable {α : Type} [DecidableEq α]

/-- Reference recurrence for the length of a longest common
subsequence, written in the textbook head-recursive form; used only to
state and prove the refinement claims against the code's table. -/
def lcsSpec : List α → List α → Nat
  | [], _ => 0
  | _ :: _, [] => 0
  | a :: as, b :: bs =>
    if a = b then lcsSpec as bs + 1
    else max (lcsSpec as (b :: bs)) (lcsSpec (a :: as) bs)
termination_by as bs => as.length + bs.length

/-- Statement that `L` is the length of a longest common subsequence of `A` and `B`
under the standard reference definition: some common subsequence has
length `L`, and every common subsequence has length at most `L`. -/
def IsLcsLength (A B : List α) (L : Nat) : Prop :=
  (∃ s : List α, s.Sublist A ∧ s.Sublist B ∧ s.length = L) ∧
  ∀ s : List α, s.Sublist A → s.Sublist B → s.length ≤ L

end SpecSide

end Golcs

/-! ## Basic equations of the model -/

namespace Golcs

section Equations

variable {α : Type} [DecidableEq α] [Inhabited α]

theorem lcsFn_zero_left (left right : List α) (y : Nat) : lcsFn left right 0 y = 0 := rfl

theorem lcsFn_succ_zero (left right : List α) (x : Nat) : lcsFn left right (x + 1) 0 = 0 := rfl

theorem lcsFn_zero_right (left right : List α) (x : Nat) : lcsFn left right x 0 = 0 := by
  cases x <;> rfl

theorem lcsFn_succ_succ (left right : List α) (x y : Nat) :
    lcsFn left right (x + 1) (y + 1) =
      max (lcsFn left right x y +
          if left.getD x default = right.getD y default then 1 else 0)
        (max (lcsFn left right x (y + 1)) (lcsFn left right (x + 1) y)) := rfl

theorem backtrackFn_zero_left (left right : List α) (tl : Nat → Nat → Nat) (y : Nat)
    (pairs : List IndexPair) : backtrackFn left right tl 0 y pairs = pairs := rfl

theorem backtrackFn_succ_zero (left right : List α) (tl : Nat → Nat → Nat) (x : Nat)
    (pairs : List IndexPair) : backtrackFn left right tl (x + 1) 0 pairs = pairs := rfl

theorem backtrackFn_succ_succ (left right : List α) (tl : Nat → Nat → Nat) (x y : Nat)
    (pairs : List IndexPair) :
    backtrackFn left right tl (x + 1) (y + 1) pairs =
      if left.getD x default = right.getD y default then
        backtrackFn left right tl x y (pairs.set (tl (x + 1) (y + 1) - 1) ⟨x, y⟩)
      else if tl x (y + 1) ≥ tl (x + 1) y then
        backtrackFn left right tl x (y + 1) pairs
      else
        backtrackFn left right tl (x + 1) y pairs := rfl

theorem gather_zero_left (left right : List α) (y : Nat) : gather left right 0 y = [] := by
  simp [gather]

theorem gather_succ_zero (left right : List α) (x : Nat) : gather left right (x + 1) 0 = [] := by
  simp [gather]

theorem gather_succ_succ (left right : List α) (x y : Nat) :
    gather left right (x + 1) (y + 1) =
      if left.getD x default = right.getD y default then
        gather left right x y ++ [⟨x, y⟩]
      else if lcsFn left right x (y + 1) ≥ lcsFn left right (x + 1) y then
        gather left right x (y + 1)
      else
        gather left right (x + 1) y := by
  simp [gather]

end Equations

/-! ## A rectangle induction principle -/

/-- Induction over the index rectangle, following the dependency order
of the DP recurrence: the value at `(x+1, y+1)` may use the values at
`(x, y)`, `(x, y+1)` and `(x+1, y)`. -/
theorem pairRect (P : Nat → Nat → Prop) (h0 : ∀ y, P 0 y) (h1 : ∀ x, P (x + 1) 0)
    (hs : ∀ x y, P x y → P x (y + 1) → P (x + 1) y → P (x + 1) (y + 1)) : ∀ x y, P x y := by
  have key : ∀ n x y, x + y ≤ n → P x y := by
    intro n
    induction n with
    | zero =>
      intro x y h
      have hx : x = 0 := by omega
      subst hx
      exact h0 y
    | succ n ih =>
      intro x y h
      match x, y with
      | 0, y => exact h0 y
      | x + 1, 0 => exact h1 x
      | x + 1, y + 1 =>
        exact hs x y (ih x y (by omega)) (ih x (y + 1) (by omega)) (ih (x + 1) y (by omega))
  exact fun x y => key (x + y) x y le_rfl

/-! ## Theory of the reference recurrence `lcsSpec` -/

section SpecTheory

variable {α : Type} [DecidableEq α]

theorem lcsSpec_nil_left (bs : List α) : lcsSpec ([] : List α) bs = 0 := by
  simp [lcsSpec]

theorem lcsSpec_nil_right (as : List α) : lcsSpec as ([] : List α) = 0 := by
  cases as <;> simp [lcsSpec]

theorem lcsSpec_cons_cons (a b : α) (as bs : List α) :
    lcsSpec (a :: as) (b :: bs) =
      if a = b then lcsSpec as bs + 1
      else max (lcsSpec as (b :: bs)) (lcsSpec (a :: as) bs) := by
  simp [lcsSpec]

/-- Some common subsequence realizes the value of the reference
recurrence. -/
theorem exists_common_of_lcsSpec (as bs : List α) :
    ∃ s : List α, s.Sublist as ∧ s.Sublist bs ∧ s.length = lcsSpec as bs := by
  have key : ∀ (n : Nat) (as bs : List α), as.length + bs.length ≤ n →
      ∃ s : List α, s.Sublist as ∧ s.Sublist bs ∧ s.length = lcsSpec as bs := by
    intro n
    induction n with
    | zero =>
      intro as bs h
      match as with
      | [] => exact ⟨[], List.nil_sublist _, List.nil_sublist _, by simp [lcsSpec_nil_left]⟩
      | a :: as => simp at h
    | succ n ih =>
      intro as bs h
      match as, bs with
      | [], bs => exact ⟨[], List.nil_sublist _, List.nil_sublist _, by simp [lcsSpec_nil_left]⟩
      | a :: as, [] =>
        exact ⟨[], List.nil_sublist _, List.nil_sublist _, by simp [lcsSpec_nil_right]⟩
      | a :: as, b :: bs =>
        rw [lcsSpec_cons_cons]
        by_cases hab : a = b
        · obtain ⟨s, h1, h2, h3⟩ := ih as bs (by simp at h ⊢; omega)
          subst hab
          exact ⟨a :: s, List.cons_sublist_cons.mpr h1, List.cons_sublist_cons.mpr h2,
            by simp [if_pos rfl, h3]⟩
        · rw [if_neg hab]
          obtain ⟨s1, h11, h12, h13⟩ := ih as (b :: bs) (by simp at h ⊢; omega)
          obtain ⟨s2, h21, h22, h23⟩ := ih (a :: as) bs (by simp at h ⊢; omega)
          rcases le_total (lcsSpec (a :: as) bs) (lcsSpec as (b :: bs)) with hle | hle
          · exact ⟨s1, List.sublist_cons_of_sublist a h11, h12,
              by rw [h13, Nat.max_eq_left hle]⟩
          · exact ⟨s2, h21, List.sublist_cons_of_sublist b h22,
              by rw [h23, Nat.max_eq_right hle]⟩
  exact key (as.length + bs.length) as bs le_rfl

/-- Every common subsequence is bounded by the reference recurrence. -/
theorem length_le_lcsSpec {as bs s : List α} (hsa : s.Sublist as) (hsb : s.Sublist bs) :
    s.length ≤ lcsSpec as bs := by
  have key : ∀ (n : Nat) (as bs s : List α), as.length + bs.length ≤ n →
      s.Sublist as → s.Sublist bs → s.length ≤ lcsSpec as bs := by
    intro n
    induction n with
    | zero =>
      intro as bs s h hsa hsb
      match as with
      | [] =>
        rw [List.sublist_nil.mp hsa]
        exact Nat.zero_le _
      | a :: as => simp at h
    | succ n ih =>
      intro as bs s h hsa hsb
      match as, bs with
      | [], bs =>
        rw [List.sublist_nil.mp hsa]
        exact Nat.zero_le _
      | a :: as, [] =>
        rw [List.sublist_nil.mp hsb]
        exact Nat.zero_le _
      | a :: as, b :: bs =>
        rw [lcsSpec_cons_cons]
        by_cases hab : a = b
        · rw [if_pos hab]
          rcases List.sublist_cons_iff.mp hsa with h1 | ⟨r, rfl, h1⟩
          · rcases List.sublist_cons_iff.mp hsb with h2 | ⟨r', rfl, h2⟩
            · exact le_trans (ih as bs s (by simp at h ⊢; omega) h1 h2) (Nat.le_succ _)
            · have h2' : r'.Sublist as := (List.sublist_cons_self b r').trans h1
              exact Nat.succ_le_succ (ih as bs r' (by simp at h ⊢; omega) h2' h2)
          · rcases List.sublist_cons_iff.mp hsb with h2 | ⟨r', heq, h2⟩
            · have h2' : r.Sublist bs := (List.sublist_cons_self a r).trans h2
              exact Nat.succ_le_succ (ih as bs r (by simp at h ⊢; omega) h1 h2')
            · obtain ⟨rfl, rfl⟩ : a = b ∧ r = r' := by
                constructor
                · exact hab
                · exact (List.cons.injEq a r b r').mp heq |>.2
              exact Nat.succ_le_succ (ih as bs r (by simp at h ⊢; omega) h1 h2)
        · rw [if_neg hab]
          rcases List.sublist_cons_iff.mp hsa with h1 | ⟨r, rfl, h1⟩
          · exact le_trans (ih as (b :: bs) s (by simp at h ⊢; omega) h1 hsb)
              (le_max_left _ _)
          · rcases List.sublist_cons_iff.mp hsb with h2 | ⟨r', heq, h2⟩
            · exact le_trans (ih (a :: as) bs (a :: r) (by simp at h ⊢; omega) hsa h2)
                (le_max_right _ _)
            · exact absurd ((List.cons.injEq a r b r').mp heq |>.1 : a = b) hab
  exact key (as.length + bs.length) as bs s le_rfl hsa hsb

end SpecTheory

end Golcs

/-! ## Bridging the code's table to the reference recurrence -/

namespace Golcs

section Bridge

variable {α : Type} [DecidableEq α] [Inhabited α]

theorem lcsSpec_mono_right {as bs bs' : List α} (h : bs.Sublist bs') :
    lcsSpec as bs ≤ lcsSpec as bs' := by
  obtain ⟨s, h1, h2, h3⟩ := exists_common_of_lcsSpec as bs
  rw [← h3]
  exact length_le_lcsSpec h1 (h2.trans h)

theorem lcsSpec_mono_left {as as' bs : List α} (h : as.Sublist as') :
    lcsSpec as bs ≤ lcsSpec as' bs := by
  obtain ⟨s, h1, h2, h3⟩ := exists_common_of_lcsSpec as bs
  rw [← h3]
  exact length_le_lcsSpec (h1.trans h) h2

/-- Removing the head of the second list lowers the value by at most 1. -/
theorem lcsSpec_cons_right_le (as bs : List α) (b : α) :
    lcsSpec as (b :: bs) ≤ lcsSpec as bs + 1 := by
  obtain ⟨s, h1, h2, h3⟩ := exists_common_of_lcsSpec as (b :: bs)
  rw [← h3]
  rcases List.sublist_cons_iff.mp h2 with h2' | ⟨r, rfl, h2'⟩
  · exact le_trans (length_le_lcsSpec h1 h2') (Nat.le_succ _)
  · have h1' : r.Sublist as := (List.sublist_cons_self b r).trans h1
    exact Nat.succ_le_succ (length_le_lcsSpec h1' h2')

/-- Removing the head of the first list lowers the value by at most 1. -/
theorem lcsSpec_cons_left_le (as bs : List α) (a : α) :
    lcsSpec (a :: as) bs ≤ lcsSpec as bs + 1 := by
  obtain ⟨s, h1, h2, h3⟩ := exists_common_of_lcsSpec (a :: as) bs
  rw [← h3]
  rcases List.sublist_cons_iff.mp h1 with h1' | ⟨r, rfl, h1'⟩
  · exact le_trans (length_le_lcsSpec h1' h2) (Nat.le_succ _)
  · have h2' : r.Sublist bs := (List.sublist_cons_self a r).trans h2
    exact Nat.succ_le_succ (length_le_lcsSpec h1' h2')

theorem take_reverse_succ (l : List α) (x : Nat) (hx : x < l.length) :
    (l.take (x + 1)).reverse = l.getD x default :: (l.take x).reverse := by
  rw [List.getD_eq_getElem l default hx, List.take_succ, List.getElem?_eq_getElem hx]
  simp

/-- The code's table entry `(x, y)` is the reference recurrence value of
the reversed prefixes `left[0..x)` and `right[0..y)`. -/
theorem lcsFn_eq_lcsSpec (left right : List α) :
    ∀ x y, x ≤ left.length → y ≤ right.length →
      lcsFn left right x y = lcsSpec ((left.take x).reverse) ((right.take y).reverse) := by
  refine pairRect (fun x y => x ≤ left.length → y ≤ right.length →
    lcsFn left right x y = lcsSpec ((left.take x).reverse) ((right.take y).reverse))
    ?_ ?_ ?_
  · intro y _ _
    simp [lcsFn_zero_left, lcsSpec_nil_left]
  · intro x _ _
    simp [lcsFn_succ_zero, lcsSpec_nil_right]
  · intro x y ih ihy ihx hx hy
    have hx' : x < left.length := by omega
    have hy' : y < right.length := by omega
    rw [take_reverse_succ left x hx', take_reverse_succ right y hy', lcsSpec_cons_cons,
      lcsFn_succ_succ]
    have e0 := ih (le_of_lt hx') (le_of_lt hy')
    have e1 := ihy (le_of_lt hx') hy
    have e2 := ihx hx (le_of_lt hy')
    rw [take_reverse_succ right y hy'] at e1
    rw [take_reverse_succ left x hx'] at e2
    by_cases heq : left.getD x default = right.getD y default
    · rw [if_pos heq, if_pos heq, e0]
      have b1 : lcsFn left right x (y + 1) ≤
          lcsSpec ((left.take x).reverse) ((right.take y).reverse) + 1 := by
        rw [e1]
        exact lcsSpec_cons_right_le _ _ _
      have b2 : lcsFn left right (x + 1) y ≤
          lcsSpec ((left.take x).reverse) ((right.take y).reverse) + 1 := by
        rw [e2]
        exact lcsSpec_cons_left_le _ _ _
      omega
    · rw [if_neg heq, if_neg heq, e0, Nat.add_zero]
      have b0 : lcsSpec ((left.take x).reverse) ((right.take y).reverse) ≤
          lcsFn left right x (y + 1) := by
        rw [e1]
        exact lcsSpec_mono_right (List.sublist_cons_self _ _)
      rw [← e1, ← e2]
      omega

/-- Interior recurrence, match branch: the three-way `max` of the code
collapses to the diagonal term plus one. -/
theorem lcsFn_succ_succ_match {left right : List α} {x y : Nat}
    (hx : x < left.length) (hy : y < right.length)
    (heq : left.getD x default = right.getD y default) :
    lcsFn left right (x + 1) (y + 1) = lcsFn left right x y + 1 := by
  rw [lcsFn_eq_lcsSpec left right (x + 1) (y + 1) (by omega) (by omega),
    take_reverse_succ left x hx, take_reverse_succ right y hy, lcsSpec_cons_cons,
    if_pos heq, lcsFn_eq_lcsSpec left right x y (le_of_lt hx) (le_of_lt hy)]

/-- Interior recurrence, non-match branch: the three-way `max` of the
code collapses to the two-way `max` of the standard recurrence. -/
theorem lcsFn_succ_succ_nonmatch {left right : List α} {x y : Nat}
    (hx : x < left.length) (hy : y < right.length)
    (heq : ¬ left.getD x default = right.getD y default) :
    lcsFn left right (x + 1) (y + 1) =
      max (lcsFn left right x (y + 1)) (lcsFn left right (x + 1) y) := by
  rw [lcsFn_eq_lcsSpec left right (x + 1) (y + 1) (by omega) (by omega),
    take_reverse_succ left x hx, take_reverse_succ right y hy, lcsSpec_cons_cons,
    if_neg heq, lcsFn_eq_lcsSpec left right x (y + 1) (le_of_lt hx) (by omega),
    lcsFn_eq_lcsSpec left right (x + 1) y (by omega) (le_of_lt hy),
    take_reverse_succ left x hx, take_reverse_succ right y hy]

/-- The bottom-right table entry is the length of a longest common
subsequence of the two inputs. -/
theorem isLcsLength_lcsFn (l r : List α) :
    IsLcsLength l r (lcsFn l r l.length r.length) := by
  rw [lcsFn_eq_lcsSpec l r l.length r.length le_rfl le_rfl, List.take_length,
    List.take_length]
  constructor
  · obtain ⟨s, h1, h2, h3⟩ := exists_common_of_lcsSpec l.reverse r.reverse
    refine ⟨s.reverse, ?_, ?_, by simp [h3]⟩
    · exact List.reverse_sublist.mp (by simpa using h1)
    · exact List.reverse_sublist.mp (by simpa using h2)
  · intro s hs1 hs2
    have h := length_le_lcsSpec (s := s.reverse)
      (List.reverse_sublist.mpr hs1) (List.reverse_sublist.mpr hs2)
    simpa using h

end Bridge

end Golcs

/-! ## The materialized table and the backtracking walk -/

namespace Golcs

section TableFacts

variable {α : Type} [DecidableEq α] [Inhabited α]

theorem buildTable_length (l r : List α) : (buildTable l r).length = l.length + 1 := by
  simp [buildTable]

theorem buildTable_row_length {l r : List α} {row : List Nat} (h : row ∈ buildTable l r) :
    row.length = r.length + 1 := by
  simp only [buildTable, List.mem_map] at h
  obtain ⟨x, _, rfl⟩ := h
  simp

theorem lookup2_buildTable (l r : List α) (x y : Nat) (hx : x ≤ l.length)
    (hy : y ≤ r.length) : lookup2 (buildTable l r) x y = lcsFn l r x y := by
  unfold lookup2 buildTable
  rw [List.getD_eq_getElem?_getD, List.getD_eq_getElem?_getD,
    List.getElem?_map, List.getElem?_range (by omega)]
  simp only [Option.map_some', Option.getD_some]
  rw [List.getElem?_map, List.getElem?_range (by omega)]
  simp

theorem buildTable_getD_zero (l r : List α) :
    ((buildTable l r).getD 0 []).length = r.length + 1 := by
  unfold buildTable
  rw [List.getD_eq_getElem?_getD, List.getElem?_map, List.getElem?_range (by omega)]
  simp

end TableFacts

section Walk

variable {α : Type} [DecidableEq α] [Inhabited α]

theorem gather_length (l r : List α) :
    ∀ x y, x ≤ l.length → y ≤ r.length → (gather l r x y).length = lcsFn l r x y := by
  refine pairRect (fun x y => x ≤ l.length → y ≤ r.length →
    (gather l r x y).length = lcsFn l r x y) ?_ ?_ ?_
  · intro y _ _
    simp [gather_zero_left, lcsFn_zero_left]
  · intro x _ _
    simp [gather_succ_zero, lcsFn_succ_zero]
  · intro x y ih ihy ihx hx hy
    have hx' : x < l.length := by omega
    have hy' : y < r.length := by omega
    rw [gather_succ_succ]
    by_cases heq : l.getD x default = r.getD y default
    · rw [if_pos heq, lcsFn_succ_succ_match hx' hy' heq]
      simp [ih (le_of_lt hx') (le_of_lt hy')]
    · rw [if_neg heq, lcsFn_succ_succ_nonmatch hx' hy' heq]
      by_cases hge : lcsFn l r x (y + 1) ≥ lcsFn l r (x + 1) y
      · rw [if_pos hge, Nat.max_eq_left hge]
        exact ihy (le_of_lt hx') hy
      · rw [if_neg hge, Nat.max_eq_right (Nat.le_of_lt (Nat.lt_of_not_le hge))]
        exact ihx hx (le_of_lt hy')

theorem gather_mem (l r : List α) :
    ∀ x y, x ≤ l.length → y ≤ r.length → ∀ p ∈ gather l r x y,
      p.Left < x ∧ p.Right < y ∧ l.getD p.Left default = r.getD p.Right default := by
  refine pairRect (fun x y => x ≤ l.length → y ≤ r.length → ∀ p ∈ gather l r x y,
    p.Left < x ∧ p.Right < y ∧ l.getD p.Left default = r.getD p.Right default) ?_ ?_ ?_
  · intro y _ _ p hp
    rw [gather_zero_left] at hp
    simp at hp
  · intro x _ _ p hp
    rw [gather_succ_zero] at hp
    simp at hp
  · intro x y ih ihy ihx hx hy p hp
    have hx' : x < l.length := by omega
    have hy' : y < r.length := by omega
    rw [gather_succ_succ] at hp
    by_cases heq : l.getD x default = r.getD y default
    · rw [if_pos heq] at hp
      rcases List.mem_append.mp hp with hp' | hp'
      · obtain ⟨h1, h2, h3⟩ := ih (le_of_lt hx') (le_of_lt hy') p hp'
        exact ⟨by omega, by omega, h3⟩
      · have : p = ⟨x, y⟩ := by simpa using hp'
        subst this
        exact ⟨Nat.lt_succ_self x, Nat.lt_succ_self y, heq⟩
    · rw [if_neg heq] at hp
      by_cases hge : lcsFn l r x (y + 1) ≥ lcsFn l r (x + 1) y
      · rw [if_pos hge] at hp
        obtain ⟨h1, h2, h3⟩ := ihy (le_of_lt hx') hy p hp
        exact ⟨by omega, h2, h3⟩
      · rw [if_neg hge] at hp
        obtain ⟨h1, h2, h3⟩ := ihx hx (le_of_lt hy') p hp
        exact ⟨h1, by omega, h3⟩

theorem gather_pairwise (l r : List α) :
    ∀ x y, x ≤ l.length → y ≤ r.length →
      (gather l r x y).Pairwise (fun p q => p.Left < q.Left ∧ p.Right < q.Right) := by
  refine pairRect (fun x y => x ≤ l.length → y ≤ r.length →
    (gather l r x y).Pairwise (fun p q => p.Left < q.Left ∧ p.Right < q.Right)) ?_ ?_ ?_
  · intro y _ _
    rw [gather_zero_left]
    exact List.Pairwise.nil
  · intro x _ _
    rw [gather_succ_zero]
    exact List.Pairwise.nil
  · intro x y ih ihy ihx hx hy
    have hx' : x < l.length := by omega
    have hy' : y < r.length := by omega
    rw [gather_succ_succ]
    by_cases heq : l.getD x default = r.getD y default
    · rw [if_pos heq, List.pairwise_append]
      refine ⟨ih (le_of_lt hx') (le_of_lt hy'), by simp, ?_⟩
      intro p hp q hq
      have hq' : q = ⟨x, y⟩ := by simpa using hq
      obtain ⟨h1, h2, _⟩ := gather_mem l r x y (le_of_lt hx') (le_of_lt hy') p hp
      subst hq'
      exact ⟨h1, h2⟩
    · rw [if_neg heq]
      by_cases hge : lcsFn l r x (y + 1) ≥ lcsFn l r (x + 1) y
      · rw [if_pos hge]
        exact ihy (le_of_lt hx') hy
      · rw [if_neg hge]
        exact ihx hx (le_of_lt hy')

theorem drop_set_of_lt {β : Type} (l : List β) (k : Nat) (a : β) (h : k < l.length) :
    (l.set k a).drop k = a :: l.drop (k + 1) := by
  rw [List.drop_eq_getElem_cons (by simpa using h), List.getElem_set_self (by simpa using h),
    List.drop_set]
  simp

/-- The backtracking walk writes exactly the `gather` pairs into the
final slots of the buffer: started at `(x, y)` on a buffer of length at
least `table[x][y]`, it returns `gather x y` followed by the untouched
tail of the buffer. -/
theorem backtrackFn_eq_gather (l r : List α) (tl : Nat → Nat → Nat) :
    ∀ x y, x ≤ l.length → y ≤ r.length →
      (∀ x' y', x' ≤ x → y' ≤ y → tl x' y' = lcsFn l r x' y') →
      ∀ acc : List IndexPair, lcsFn l r x y ≤ acc.length →
        backtrackFn l r tl x y acc = gather l r x y ++ acc.drop (lcsFn l r x y) := by
  refine pairRect (fun x y => x ≤ l.length → y ≤ r.length →
    (∀ x' y', x' ≤ x → y' ≤ y → tl x' y' = lcsFn l r x' y') →
    ∀ acc : List IndexPair, lcsFn l r x y ≤ acc.length →
      backtrackFn l r tl x y acc = gather l r x y ++ acc.drop (lcsFn l r x y)) ?_ ?_ ?_
  · intro y _ _ _ acc _
    rw [backtrackFn_zero_left, gather_zero_left, lcsFn_zero_left]
    simp
  · intro x _ _ _ acc _
    rw [backtrackFn_succ_zero, gather_succ_zero, lcsFn_succ_zero]
    simp
  · intro x y ih ihy ihx hx hy htl acc hacc
    have hx' : x < l.length := by omega
    have hy' : y < r.length := by omega
    rw [backtrackFn_succ_succ, gather_succ_succ]
    by_cases heq : l.getD x default = r.getD y default
    · rw [if_pos heq, if_pos heq]
      have hmv : lcsFn l r (x + 1) (y + 1) = lcsFn l r x y + 1 :=
        lcsFn_succ_succ_match hx' hy' heq
      rw [htl (x + 1) (y + 1) le_rfl le_rfl, hmv, Nat.add_sub_cancel]
      have hlen : lcsFn l r x y < acc.length := by omega
      rw [ih (le_of_lt hx') (le_of_lt hy')
        (fun x' y' h1 h2 => htl x' y' (by omega) (by omega))
        (acc.set (lcsFn l r x y) ⟨x, y⟩) (by rw [List.length_set]; omega)]
      rw [drop_set_of_lt acc (lcsFn l r x y) ⟨x, y⟩ hlen]
      simp
    · rw [if_neg heq, if_neg heq]
      have hnm := lcsFn_succ_succ_nonmatch hx' hy' heq
      rw [htl x (y + 1) (by omega) le_rfl, htl (x + 1) y le_rfl (by omega)]
      by_cases hge : lcsFn l r x (y + 1) ≥ lcsFn l r (x + 1) y
      · rw [if_pos hge, if_pos hge]
        have hv : lcsFn l r (x + 1) (y + 1) = lcsFn l r x (y + 1) := by
          rw [hnm]
          exact Nat.max_eq_left hge
        rw [hv]
        exact ihy (le_of_lt hx') hy
          (fun x' y' h1 h2 => htl x' y' (by omega) h2) acc (by omega)
      · rw [if_neg hge, if_neg hge]
        have hv : lcsFn l r (x + 1) (y + 1) = lcsFn l r (x + 1) y := by
          rw [hnm]
          exact Nat.max_eq_right (Nat.le_of_lt (Nat.lt_of_not_le hge))
        rw [hv]
        exact ihx hx (le_of_lt hy')
          (fun x' y' h1 h2 => htl x' y' h1 (by omega)) acc (by omega)

end Walk

end Golcs

/-! ## Session-level characterizations -/

namespace Golcs

section Sessions

variable {α : Type} [DecidableEq α] [Inhabited α]

theorem firstCancel_of_never (ctx : Context) (h : ∀ k, ctx k = false) (n : Nat) :
    firstCancel ctx n = none := by
  rw [firstCancel, List.find?_eq_none]
  intro x _
  simp [h x]

theorem firstCancel_background (n : Nat) : firstCancel background n = none :=
  firstCancel_of_never background (fun _ => rfl) n

theorem firstCancel_of_fired (ctx : Context) (h : ∀ k, ctx k = true) {n : Nat}
    (hn : n ≠ 0) : firstCancel ctx n = some 1 := by
  cases n with
  | zero => exact absurd rfl hn
  | succ n =>
    rw [firstCancel, List.range'_succ, List.find?_cons]
    simp [h 1]

theorem tableContext_cached {ctx : Context} {s : Session α} {t : List (List Nat)}
    (h : s.table = some t) : TableContext ctx s = (Except.ok t, s) := by
  rw [TableContext, h]

theorem tableContext_new_ok (l r : List α) (ctx : Context)
    (hc : firstCancel ctx r.length = none) :
    TableContext ctx (New l r) =
      (Except.ok (buildTable l r),
       { left := l, right := r, table := some (buildTable l r),
         indexPairs := none, values := none }) := by
  rw [TableContext]
  show (match firstCancel ctx (New l r).right.length with
    | some _ => (Except.error GoError.cancelled, New l r)
    | none => _) = _
  rw [show (New l r).right.length = r.length from rfl, hc]
  rfl

theorem tableContext_new_cancelled (l r : List α) (ctx : Context) {k : Nat}
    (hc : firstCancel ctx r.length = some k) :
    TableContext ctx (New l r) = (Except.error GoError.cancelled, New l r) := by
  rw [TableContext]
  show (match firstCancel ctx (New l r).right.length with
    | some _ => (Except.error GoError.cancelled, New l r)
    | none => _) = _
  rw [show (New l r).right.length = r.length from rfl, hc]

theorem lengthContext_new_ok (l r : List α) (ctx : Context)
    (hc : firstCancel ctx r.length = none) :
    LengthContext ctx (New l r) =
      (Except.ok (lcsFn l r l.length r.length),
       { left := l, right := r, table := some (buildTable l r),
         indexPairs := none, values := none }) := by
  rw [LengthContext, tableContext_new_ok l r ctx hc]
  simp only []
  rw [lookup2_buildTable l r l.length r.length le_rfl le_rfl]

theorem length_new (l r : List α) :
    Length (New l r) =
      (lcsFn l r l.length r.length,
       { left := l, right := r, table := some (buildTable l r),
         indexPairs := none, values := none }) := by
  rw [Length, lengthContext_new_ok l r background (firstCancel_background r.length)]

theorem indexPairsContext_new_ok (l r : List α) (ctx : Context)
    (hc : firstCancel ctx r.length = none) :
    IndexPairsContext ctx (New l r) =
      (Except.ok (gather l r l.length r.length),
       { left := l, right := r, table := some (buildTable l r),
         indexPairs := some (gather l r l.length r.length), values := none }) := by
  rw [IndexPairsContext]
  show (match TableContext ctx (New l r) with
    | (Except.error e, s') => (Except.error e, s')
    | (Except.ok t, s') => _) = _
  rw [tableContext_new_ok l r ctx hc]
  have hdim1 : (buildTable l r).length - 1 = l.length := by
    rw [buildTable_length]
    omega
  have hdim2 : ((buildTable l r).getD 0 []).length - 1 = r.length := by
    rw [buildTable_getD_zero]
    omega
  simp only [hdim1, hdim2]
  have hbuf : lookup2 (buildTable l r) l.length r.length = lcsFn l r l.length r.length :=
    lookup2_buildTable l r l.length r.length le_rfl le_rfl
  rw [hbuf]
  have hwalk := backtrackFn_eq_gather l r (lookup2 (buildTable l r)) l.length r.length
    le_rfl le_rfl (fun x' y' h1 h2 => lookup2_buildTable l r x' y' h1 h2)
    (List.replicate (lcsFn l r l.length r.length) ⟨0, 0⟩)
    (by rw [List.length_replicate])
  rw [hwalk, List.drop_replicate]
  simp

theorem indexPairs_new (l r : List α) :
    IndexPairs (New l r) =
      (gather l r l.length r.length,
       { left := l, right := r, table := some (buildTable l r),
         indexPairs := some (gather l r l.length r.length), values := none }) := by
  rw [IndexPairs, indexPairsContext_new_ok l r background (firstCancel_background r.length)]

theorem valuesContext_new_ok (l r : List α) (ctx : Context)
    (hc : firstCancel ctx r.length = none) :
    ValuesContext ctx (New l r) =
      (Except.ok ((gather l r l.length r.length).map fun p => l.getD p.Left default),
       { left := l, right := r, table := some (buildTable l r),
         indexPairs := some (gather l r l.length r.length),
         values := some ((gather l r l.length r.length).map
           fun p => l.getD p.Left default) }) := by
  rw [ValuesContext]
  show (match IndexPairsContext ctx (New l r) with
    | (Except.error e, s') => (Except.error e, s')
    | (Except.ok pairs, s') => _) = _
  rw [indexPairsContext_new_ok l r ctx hc]

theorem values_new (l r : List α) :
    Values (New l r) =
      ((gather l r l.length r.length).map (fun p => l.getD p.Left default),
       { left := l, right := r, table := some (buildTable l r),
         indexPairs := some (gather l r l.length r.length),
         values := some ((gather l r l.length r.length).map
           fun p => l.getD p.Left default) }) := by
  rw [Values, valuesContext_new_ok l r background (firstCancel_background r.length)]

end Sessions

end Golcs

/-! ## Error propagation and cache-hit behavior -/

namespace Golcs

section ErrorsAndCaching

variable {α : Type} [DecidableEq α] [Inhabited α]

theorem tableContext_error_state {ctx : Context} {s s' : Session α} {e : GoError}
    (h : TableContext ctx s = (Except.error e, s')) : s' = s := by
  unfold TableContext at h
  cases hs : s.table with
  | some t =>
    rw [hs] at h
    simp at h
  | none =>
    rw [hs] at h
    cases hfc : firstCancel ctx s.right.length with
    | some k =>
      rw [hfc] at h
      injection h with h1 h2
      exact h2.symm
    | none =>
      rw [hfc] at h
      simp at h

theorem lengthContext_error_state {ctx : Context} {s s' : Session α} {e : GoError}
    (h : LengthContext ctx s = (Except.error e, s')) : s' = s := by
  unfold LengthContext at h
  cases hTC : TableContext ctx s with
  | mk res s₁ =>
    rw [hTC] at h
    cases res with
    | error e' =>
      injection h with h1 h2
      rw [h2] at hTC
      exact tableContext_error_state hTC
    | ok t => simp at h

theorem indexPairsContext_error_state {ctx : Context} {s s' : Session α} {e : GoError}
    (h : IndexPairsContext ctx s = (Except.error e, s')) : s' = s := by
  unfold IndexPairsContext at h
  cases hs : s.indexPairs with
  | some p =>
    rw [hs] at h
    simp at h
  | none =>
    rw [hs] at h
    cases hTC : TableContext ctx s with
    | mk res s₁ =>
      rw [hTC] at h
      cases res with
      | error e' =>
        injection h with h1 h2
        rw [h2] at hTC
        exact tableContext_error_state hTC
      | ok t => simp at h

theorem valuesContext_error_state {ctx : Context} {s s' : Session α} {e : GoError}
    (h : ValuesContext ctx s = (Except.error e, s')) : s' = s := by
  unfold ValuesContext at h
  cases hs : s.values with
  | some v =>
    rw [hs] at h
    simp at h
  | none =>
    rw [hs] at h
    cases hIP : IndexPairsContext ctx s with
    | mk res s₁ =>
      rw [hIP] at h
      cases res with
      | error e' =>
        injection h with h1 h2
        rw [h2] at hIP
        exact indexPairsContext_error_state hIP
      | ok p => simp at h

theorem indexPairsContext_cached {ctx : Context} {s : Session α} {p : List IndexPair}
    (h : s.indexPairs = some p) : IndexPairsContext ctx s = (Except.ok p, s) := by
  rw [IndexPairsContext, h]

theorem valuesContext_cached {ctx : Context} {s : Session α} {v : List α}
    (h : s.values = some v) : ValuesContext ctx s = (Except.ok v, s) := by
  rw [ValuesContext, h]

theorem lengthContext_cached {ctx : Context} {s : Session α} {t : List (List Nat)}
    (h : s.table = some t) :
    LengthContext ctx s = (Except.ok (lookup2 t s.left.length s.right.length), s) := by
  rw [LengthContext, tableContext_cached h]

theorem lengthContext_new_cancelled (l r : List α) (ctx : Context) {k : Nat}
    (hc : firstCancel ctx r.length = some k) :
    LengthContext ctx (New l r) = (Except.error GoError.cancelled, New l r) := by
  rw [LengthContext, tableContext_new_cancelled l r ctx hc]

theorem indexPairsContext_new_cancelled (l r : List α) (ctx : Context) {k : Nat}
    (hc : firstCancel ctx r.length = some k) :
    IndexPairsContext ctx (New l r) = (Except.error GoError.cancelled, New l r) := by
  rw [IndexPairsContext]
  show (match TableContext ctx (New l r) with
    | (Except.error e, s') => (Except.error e, s')
    | (Except.ok t, s') => _) = _
  rw [tableContext_new_cancelled l r ctx hc]

theorem valuesContext_new_cancelled (l r : List α) (ctx : Context) {k : Nat}
    (hc : firstCancel ctx r.length = some k) :
    ValuesContext ctx (New l r) = (Except.error GoError.cancelled, New l r) := by
  rw [ValuesContext]
  show (match IndexPairsContext ctx (New l r) with
    | (Except.error e, s') => (Except.error e, s')
    | (Except.ok pairs, s') => _) = _
  rw [indexPairsContext_new_cancelled l r ctx hc]

theorem tableContext_ok_caches {ctx : Context} {s s' : Session α} {t : List (List Nat)}
    (h : TableContext ctx s = (Except.ok t, s')) :
    s'.table = some t ∧ s'.left = s.left ∧ s'.right = s.right ∧
    s'.indexPairs = s.indexPairs ∧ s'.values = s.values := by
  unfold TableContext at h
  cases hs : s.table with
  | some t0 =>
    rw [hs] at h
    injection h with h1 h2
    injection h1 with h1
    subst h2
    exact ⟨by rw [hs, h1], rfl, rfl, rfl, rfl⟩
  | none =>
    rw [hs] at h
    cases hfc : firstCancel ctx s.right.length with
    | some k =>
      rw [hfc] at h
      simp at h
    | none =>
      rw [hfc] at h
      injection h with h1 h2
      injection h1 with h1
      rw [← h2]
      exact ⟨by rw [h1], rfl, rfl, rfl, rfl⟩

theorem indexPairsContext_ok_caches {ctx : Context} {s s' : Session α} {p : List IndexPair}
    (h : IndexPairsContext ctx s = (Except.ok p, s')) :
    s'.indexPairs = some p ∧ s'.left = s.left ∧ s'.right = s.right ∧ s'.values = s.values := by
  unfold IndexPairsContext at h
  cases hs : s.indexPairs with
  | some p0 =>
    rw [hs] at h
    injection h with h1 h2
    injection h1 with h1
    subst h2
    exact ⟨by rw [hs, h1], rfl, rfl, rfl⟩
  | none =>
    rw [hs] at h
    cases hTC : TableContext ctx s with
    | mk res s₁ =>
      rw [hTC] at h
      cases res with
      | error e' => simp at h
      | ok t =>
        injection h with h1 h2
        injection h1 with h1
        obtain ⟨hc1, hc2, hc3, hc4, hc5⟩ := tableContext_ok_caches hTC
        rw [← h2]
        exact ⟨by rw [h1], hc2, hc3, hc5⟩

theorem valuesContext_ok_caches {ctx : Context} {s s' : Session α} {v : List α}
    (h : ValuesContext ctx s = (Except.ok v, s')) : s'.values = some v := by
  unfold ValuesContext at h
  cases hs : s.values with
  | some v0 =>
    rw [hs] at h
    injection h with h1 h2
    injection h1 with h1
    subst h2
    rw [hs, h1]
  | none =>
    rw [hs] at h
    cases hIP : IndexPairsContext ctx s with
    | mk res s₁ =>
      rw [hIP] at h
      cases res with
      | error e' => simp at h
      | ok p =>
        injection h with h1 h2
        injection h1 with h1
        rw [← h2]
        rw [h1]

theorem tableContext_background_ok (s : Session α) :
    ∃ t s', TableContext background s = (Except.ok t, s') := by
  unfold TableContext
  cases hs : s.table with
  | some t => exact ⟨t, s, rfl⟩
  | none =>
    rw [firstCancel_background]
    exact ⟨buildTable s.left s.right, _, rfl⟩

theorem indexPairsContext_background_ok (s : Session α) :
    ∃ p s', IndexPairsContext background s = (Except.ok p, s') := by
  unfold IndexPairsContext
  cases hs : s.indexPairs with
  | some p => exact ⟨p, s, rfl⟩
  | none =>
    obtain ⟨t, s₁, hTC⟩ := tableContext_background_ok s
    rw [hTC]
    exact ⟨_, _, rfl⟩

theorem valuesContext_background_ok (s : Session α) :
    ∃ v s', ValuesContext background s = (Except.ok v, s') := by
  unfold ValuesContext
  cases hs : s.values with
  | some v => exact ⟨v, s, rfl⟩
  | none =>
    obtain ⟨p, s₁, hIP⟩ := indexPairsContext_background_ok s
    rw [hIP]
    exact ⟨_, _, rfl⟩

end ErrorsAndCaching

end Golcs

/-! ## Claim theorems -/

namespace Golcs

/-- C1: For every pair of input sequences A (left) and B (right),
`Length` — and `LengthContext` under a never-cancelled context —
returns the length of a longest common subsequence of A and B as given
by the standard reference definition: the maximal length of a sequence
that is a subsequence of both A and B under the element-equality
predicate. -/
theorem c1_length_is_lcs {α : Type} [DecidableEq α] [Inhabited α] (left right : List α) :
    IsLcsLength left right ((Length (New left right)).1) ∧
    ∀ ctx : Context, (∀ k, ctx k = false) →
      (LengthContext ctx (New left right)).1 =
        Except.ok ((Length (New left right)).1) := by
  constructor
  · rw [length_new]
    exact isLcsLength_lcsFn left right
  · intro ctx h
    rw [lengthContext_new_ok left right ctx (firstCancel_of_never ctx h right.length),
      length_new]

/-- Witness for C1 at a concrete input, the never-cancelled-context
hypothesis discharged at `background`. -/
theorem c1_witness :
    IsLcsLength ([3, 1, 2] : List Nat) [1, 2, 4]
      ((Length (New ([3, 1, 2] : List Nat) [1, 2, 4])).1) ∧
    (LengthContext background (New ([3, 1, 2] : List Nat) [1, 2, 4])).1 =
      Except.ok ((Length (New ([3, 1, 2] : List Nat) [1, 2, 4])).1) :=
  ⟨(c1_length_is_lcs [3, 1, 2] [1, 2, 4]).1,
   (c1_length_is_lcs [3, 1, 2] [1, 2, 4]).2 background (fun _ => rfl)⟩

/-- C9: For every sequence A, a session with left = A and right = A has
`Length` equal to the length of A: a sequence is its own longest common
subsequence. -/
theorem c9_self_lcs {α : Type} [DecidableEq α] [Inhabited α] (A : List α) :
    (Length (New A A)).1 = A.length := by
  rw [length_new]
  show lcsFn A A A.length A.length = A.length
  obtain ⟨⟨s, h1, h2, h3⟩, hub⟩ := isLcsLength_lcsFn A A
  have hA := hub A (List.Sublist.refl A) (List.Sublist.refl A)
  have hs := h1.length_le
  omega

/-- C2: the table returned by `TableContext` under a never-cancelled
context has dimensions (m+1)×(n+1), zero row 0 and column 0, and its
interior satisfies the standard LCS recurrence with the diagonal term
excluded from the non-match branch. -/
theorem c2_table_shape {α : Type} [DecidableEq α] [Inhabited α] (left right : List α)
    (ctx : Context) (hctx : ∀ k, ctx k = false) (T : List (List Nat))
    (hT : (TableContext ctx (New left right)).1 = Except.ok T) :
    T.length = left.length + 1 ∧
    (∀ row ∈ T, row.length = right.length + 1) ∧
    (∀ y, y ≤ right.length → lookup2 T 0 y = 0) ∧
    (∀ x, x ≤ left.length → lookup2 T x 0 = 0) ∧
    (∀ x y, 1 ≤ x → x ≤ left.length → 1 ≤ y → y ≤ right.length →
      lookup2 T x y =
        if left.getD (x - 1) default = right.getD (y - 1) default
        then lookup2 T (x - 1) (y - 1) + 1
        else max (lookup2 T (x - 1) y) (lookup2 T x (y - 1))) := by
  rw [tableContext_new_ok left right ctx (firstCancel_of_never ctx hctx right.length)] at hT
  have hok : Except.ok (buildTable left right) = Except.ok T := hT
  have hBT : buildTable left right = T := by injection hok
  subst hBT
  refine ⟨buildTable_length left right, fun row hrow => buildTable_row_length hrow, ?_, ?_, ?_⟩
  · intro y hy
    rw [lookup2_buildTable left right 0 y (Nat.zero_le _) hy, lcsFn_zero_left]
  · intro x hx
    rw [lookup2_buildTable left right x 0 hx (Nat.zero_le _), lcsFn_zero_right]
  · intro x y hx1 hx2 hy1 hy2
    obtain ⟨x', rfl⟩ : ∃ x', x = x' + 1 := ⟨x - 1, by omega⟩
    obtain ⟨y', rfl⟩ : ∃ y', y = y' + 1 := ⟨y - 1, by omega⟩
    simp only [Nat.add_sub_cancel]
    have hx' : x' < left.length := by omega
    have hy' : y' < right.length := by omega
    rw [lookup2_buildTable left right (x' + 1) (y' + 1) hx2 hy2]
    by_cases heq : left.getD x' default = right.getD y' default
    · rw [if_pos heq, lcsFn_succ_succ_match hx' hy' heq,
        lookup2_buildTable left right x' y' (by omega) (by omega)]
    · rw [if_neg heq, lcsFn_succ_succ_nonmatch hx' hy' heq,
        lookup2_buildTable left right x' (y' + 1) (by omega) hy2,
        lookup2_buildTable left right (x' + 1) y' hx2 (by omega)]

/-- Witness for C2: the concrete table of `[8, 9]` against `[9]`,
with the recurrence instantiated at the matching cell (2, 1) and the
non-matching cell (1, 1). -/
theorem c2_witness :
    lookup2 (buildTable ([8, 9] : List Nat) [9]) 2 1 =
      lookup2 (buildTable ([8, 9] : List Nat) [9]) 1 0 + 1 ∧
    lookup2 (buildTable ([8, 9] : List Nat) [9]) 1 1 =
      max (lookup2 (buildTable ([8, 9] : List Nat) [9]) 0 1)
        (lookup2 (buildTable ([8, 9] : List Nat) [9]) 1 0) := by
  have h := c2_table_shape ([8, 9] : List Nat) [9] background (fun _ => rfl)
    (buildTable [8, 9] [9]) rfl
  have h1 := h.2.2.2.2 2 1 (by omega) (by decide) (by omega) (by decide)
  have h2 := h.2.2.2.2 1 1 (by omega) (by decide) (by omega) (by decide)
  rw [if_pos (by decide)] at h1
  rw [if_neg (by decide)] at h2
  exact ⟨h1, h2⟩

end Golcs

namespace Golcs

/-- C3: the list returned by `IndexPairs` — and by `IndexPairsContext`
under a never-cancelled context — is strictly increasing in both the
Left and the Right coordinate from one pair to the next, and every pair
(i, j) in it satisfies left[i] = right[j] under the element-equality
predicate. -/
theorem c3_pairs_sorted_matching {α : Type} [DecidableEq α] [Inhabited α]
    (left right : List α) :
    ((IndexPairs (New left right)).1).Chain'
      (fun p q => p.Left < q.Left ∧ p.Right < q.Right) ∧
    (∀ p ∈ (IndexPairs (New left right)).1,
      p.Left < left.length ∧ p.Right < right.length ∧
      left.getD p.Left default = right.getD p.Right default) ∧
    ∀ ctx : Context, (∀ k, ctx k = false) →
      (IndexPairsContext ctx (New left right)).1 =
        Except.ok ((IndexPairs (New left right)).1) := by
  have hp : (IndexPairs (New left right)).1 = gather left right left.length right.length := by
    rw [indexPairs_new]
  refine ⟨?_, ?_, ?_⟩
  · rw [hp]
    exact (gather_pairwise left right left.length right.length le_rfl le_rfl).chain'
  · rw [hp]
    exact gather_mem left right left.length right.length le_rfl le_rfl
  · intro ctx h
    rw [indexPairsContext_new_ok left right ctx (firstCancel_of_never ctx h right.length), hp]

/-- Witness for C3 at `left = [1, 2]`, `right = [2, 9]` (pairs
`[(1, 0)]`): membership and the never-cancelled hypothesis discharged
concretely. -/
theorem c3_witness :
    ((IndexPair.mk 1 0).Left < ([1, 2] : List Nat).length ∧
     (IndexPair.mk 1 0).Right < ([2, 9] : List Nat).length ∧
     ([1, 2] : List Nat).getD (IndexPair.mk 1 0).Left default =
       ([2, 9] : List Nat).getD (IndexPair.mk 1 0).Right default) ∧
    (IndexPairsContext background (New ([1, 2] : List Nat) [2, 9])).1 =
      Except.ok ((IndexPairs (New ([1, 2] : List Nat) [2, 9])).1) :=
  ⟨(c3_pairs_sorted_matching [1, 2] [2, 9]).2.1 ⟨1, 0⟩ (by decide),
   (c3_pairs_sorted_matching [1, 2] [2, 9]).2.2 background (fun _ => rfl)⟩

/-- C4: `Values` has length equal to `Length`, and the element at each
position i of `Values` is `left[p.Left]` where p is the pair at
position i of `IndexPairs`. -/
theorem c4_values_project {α : Type} [DecidableEq α] [Inhabited α] (left right : List α) :
    ((Values (New left right)).1).length = (Length (New left right)).1 ∧
    ∀ i, i < ((Values (New left right)).1).length →
      ((Values (New left right)).1).getD i default =
        left.getD (((IndexPairs (New left right)).1).getD i ⟨0, 0⟩).Left default := by
  have hv : (Values (New left right)).1 =
      (gather left right left.length right.length).map
        (fun p => left.getD p.Left default) := by
    rw [values_new]
  have hp : (IndexPairs (New left right)).1 = gather left right left.length right.length := by
    rw [indexPairs_new]
  have hl : (Length (New left right)).1 = lcsFn left right left.length right.length := by
    rw [length_new]
  constructor
  · rw [hv, hl, List.length_map,
      gather_length left right left.length right.length le_rfl le_rfl]
  · intro i hi
    rw [hv] at hi
    rw [List.length_map] at hi
    rw [hv, hp]
    rw [List.getD_eq_getElem _ default (by simpa using hi)]
    rw [List.getElem_map]
    rw [List.getD_eq_getElem _ (⟨0, 0⟩ : IndexPair) hi]

/-- Witness for C4 at `left = [1, 2]`, `right = [2, 9]`, position 0. -/
theorem c4_witness :
    ((Values (New ([1, 2] : List Nat) [2, 9])).1).getD 0 default =
      ([1, 2] : List Nat).getD
        (((IndexPairs (New ([1, 2] : List Nat) [2, 9])).1).getD 0 ⟨0, 0⟩).Left default :=
  (c4_values_project [1, 2] [2, 9]).2 0 (by decide)

/-- C8: when at least one input sequence is empty, no error besides
cancellation can occur and `Length` returns 0, `IndexPairs` the empty
list and `Values` the empty sequence. -/
theorem c8_empty_inputs {α : Type} [DecidableEq α] [Inhabited α] (left right : List α)
    (h : left = [] ∨ right = []) :
    (Length (New left right)).1 = 0 ∧
    (IndexPairs (New left right)).1 = [] ∧
    (Values (New left right)).1 = [] ∧
    (LengthContext background (New left right)).1 = Except.ok 0 ∧
    (IndexPairsContext background (New left right)).1 = Except.ok [] ∧
    (ValuesContext background (New left right)).1 = Except.ok [] := by
  have hlen : lcsFn left right left.length right.length = 0 := by
    rcases h with rfl | rfl
    · rw [show ([] : List α).length = 0 from rfl, lcsFn_zero_left]
    · rw [show ([] : List α).length = 0 from rfl, lcsFn_zero_right]
  have hgather : gather left right left.length right.length = [] := by
    have hg := gather_length left right left.length right.length le_rfl le_rfl
    rw [hlen] at hg
    exact List.length_eq_zero.mp hg
  refine ⟨?_, ?_, ?_, ?_, ?_, ?_⟩
  · rw [length_new]
    exact hlen
  · rw [indexPairs_new]
    exact hgather
  · rw [values_new]
    show (gather left right left.length right.length).map _ = []
    rw [hgather]
    rfl
  · rw [lengthContext_new_ok left right background (firstCancel_background right.length)]
    show Except.ok (lcsFn left right left.length right.length) = Except.ok 0
    rw [hlen]
  · rw [indexPairsContext_new_ok left right background (firstCancel_background right.length)]
    show Except.ok (gather left right left.length right.length) = Except.ok []
    rw [hgather]
  · rw [valuesContext_new_ok left right background (firstCancel_background right.length)]
    show Except.ok ((gather left right left.length right.length).map _) = Except.ok []
    rw [hgather]
    rfl

/-- Witness for C8 with an empty left sequence. -/
theorem c8_witness :
    (Length (New ([] : List Nat) [5, 6])).1 = 0 ∧
    (IndexPairs (New ([] : List Nat) [5, 6])).1 = [] ∧
    (Values (New ([] : List Nat) [5, 6])).1 = [] :=
  ⟨(c8_empty_inputs [] [5, 6] (Or.inl rfl)).1,
   (c8_empty_inputs [] [5, 6] (Or.inl rfl)).2.1,
   (c8_empty_inputs [] [5, 6] (Or.inl rfl)).2.2.1⟩

end Golcs

namespace Golcs

/-- Counterexample to C5 as stated: with `left = [1]`, `right = []` and
an already-fired cancellation signal, every cancellable entry point on
a fresh session succeeds — the outer loop of the table construction
never runs, so the cancellation signal is never checked — instead of
returning a Cancelled error as the claim requires for every pair of
input sequences. -/
theorem c5_counterexample :
    (TableContext fired (New ([1] : List Nat) ([] : List Nat))).1 =
      Except.ok [[0], [0]] ∧
    (LengthContext fired (New ([1] : List Nat) ([] : List Nat))).1 = Except.ok 0 ∧
    (IndexPairsContext fired (New ([1] : List Nat) ([] : List Nat))).1 = Except.ok [] ∧
    (ValuesContext fired (New ([1] : List Nat) ([] : List Nat))).1 = Except.ok [] ∧
    (LengthContext fired (New ([1] : List Nat) ([] : List Nat))).1 ≠
      Except.error GoError.cancelled := by
  refine ⟨rfl, rfl, rfl, rfl, ?_⟩
  intro h
  exact Except.noConfusion
    ((rfl : (LengthContext fired (New ([1] : List Nat) ([] : List Nat))).1 =
      Except.ok 0).symm.trans h)

/-- C5 as amended: provided the right sequence is nonempty, each
cancellable entry point called on a fresh session with an
already-cancelled signal returns a Cancelled error, no result is stored
in the session cache (the session is returned unchanged), and a
subsequent call with a non-cancelled signal succeeds normally. -/
theorem c5_cancelled_fresh {α : Type} [DecidableEq α] [Inhabited α] (left right : List α)
    (ctx : Context) (hne : right ≠ []) (hfired : ∀ k, ctx k = true) :
    TableContext ctx (New left right) = (Except.error GoError.cancelled, New left right) ∧
    LengthContext ctx (New left right) = (Except.error GoError.cancelled, New left right) ∧
    IndexPairsContext ctx (New left right) =
      (Except.error GoError.cancelled, New left right) ∧
    ValuesContext ctx (New left right) = (Except.error GoError.cancelled, New left right) ∧
    (TableContext background (New left right)).1 = Except.ok (buildTable left right) ∧
    (LengthContext background (New left right)).1 =
      Except.ok (lcsFn left right left.length right.length) ∧
    (IndexPairsContext background (New left right)).1 =
      Except.ok (gather left right left.length right.length) ∧
    (ValuesContext background (New left right)).1 =
      Except.ok ((gather left right left.length right.length).map
        fun p => left.getD p.Left default) := by
  have hn : right.length ≠ 0 := by
    intro h0
    exact hne (List.length_eq_zero.mp h0)
  have hc := firstCancel_of_fired ctx hfired hn
  refine ⟨tableContext_new_cancelled left right ctx hc,
    lengthContext_new_cancelled left right ctx hc,
    indexPairsContext_new_cancelled left right ctx hc,
    valuesContext_new_cancelled left right ctx hc, ?_, ?_, ?_, ?_⟩
  · rw [tableContext_new_ok left right background (firstCancel_background right.length)]
  · rw [lengthContext_new_ok left right background (firstCancel_background right.length)]
  · rw [indexPairsContext_new_ok left right background (firstCancel_background right.length)]
  · rw [valuesContext_new_ok left right background (firstCancel_background right.length)]

/-- Witness for the amended C5 at `left = [1]`, `right = [2]` with the
`fired` signal. -/
theorem c5_witness :
    TableContext fired (New ([1] : List Nat) [2]) =
      (Except.error GoError.cancelled, New [1] [2]) ∧
    (LengthContext background (New ([1] : List Nat) [2])).1 =
      Except.ok (lcsFn ([1] : List Nat) [2] ([1] : List Nat).length ([2] : List Nat).length) :=
  ⟨(c5_cancelled_fresh [1] [2] fired (by decide) (fun _ => rfl)).1,
   (c5_cancelled_fresh [1] [2] fired (by decide) (fun _ => rfl)).2.2.2.2.2.1⟩

/-- C6: whenever a cancellable entry point returns a Cancelled error,
the session cache is left unchanged — the returned session is the one
the call started from, so a later call re-attempts the computation from
the state the cache had before the failed call. -/
theorem c6_no_cache_on_error {α : Type} [DecidableEq α] [Inhabited α] (ctx : Context)
    (s : Session α) :
    (∀ e s', TableContext ctx s = (Except.error e, s') → s' = s) ∧
    (∀ e s', LengthContext ctx s = (Except.error e, s') → s' = s) ∧
    (∀ e s', IndexPairsContext ctx s = (Except.error e, s') → s' = s) ∧
    (∀ e s', ValuesContext ctx s = (Except.error e, s') → s' = s) :=
  ⟨fun _ _ h => tableContext_error_state h,
   fun _ _ h => lengthContext_error_state h,
   fun _ _ h => indexPairsContext_error_state h,
   fun _ _ h => valuesContext_error_state h⟩

/-- Witness for C6: a cancelled `IndexPairsContext` call on a fresh
session leaves the session unchanged. -/
theorem c6_witness :
    (IndexPairsContext fired (New ([1] : List Nat) [2])).2 = New [1] [2] :=
  (c6_no_cache_on_error fired (New ([1] : List Nat) [2])).2.2.1 GoError.cancelled _ rfl

/-- C10: a computation already cached on the session is returned, with
no error, by the corresponding cancellable entry point even when the
supplied cancellation signal has already fired — the cache check
precedes any cancellation check. -/
theorem c10_cache_before_cancellation {α : Type} [DecidableEq α] [Inhabited α]
    (ctx : Context) (s : Session α) :
    (∀ t, s.table = some t → TableContext ctx s = (Except.ok t, s)) ∧
    (∀ t, s.table = some t → LengthContext ctx s =
      (Except.ok (lookup2 t s.left.length s.right.length), s)) ∧
    (∀ p, s.indexPairs = some p → IndexPairsContext ctx s = (Except.ok p, s)) ∧
    (∀ v, s.values = some v → ValuesContext ctx s = (Except.ok v, s)) :=
  ⟨fun _ h => tableContext_cached h,
   fun _ h => lengthContext_cached h,
   fun _ h => indexPairsContext_cached h,
   fun _ h => valuesContext_cached h⟩

/-- Witness for C10: a session holding cached results answers every
entry point under the `fired` signal. -/
theorem c10_witness :
    TableContext fired
      (Session.mk ([1] : List Nat) [1] (some (buildTable ([1] : List Nat) [1]))
        (some [⟨0, 0⟩]) (some [1])) =
      (Except.ok (buildTable ([1] : List Nat) [1]),
       Session.mk ([1] : List Nat) [1] (some (buildTable ([1] : List Nat) [1]))
         (some [⟨0, 0⟩]) (some [1])) ∧
    ValuesContext fired
      (Session.mk ([1] : List Nat) [1] (some (buildTable ([1] : List Nat) [1]))
        (some [⟨0, 0⟩]) (some [1])) =
      (Except.ok [1],
       Session.mk ([1] : List Nat) [1] (some (buildTable ([1] : List Nat) [1]))
         (some [⟨0, 0⟩]) (some [1])) :=
  ⟨(c10_cache_before_cancellation fired
      (Session.mk ([1] : List Nat) [1] (some (buildTable ([1] : List Nat) [1]))
        (some [⟨0, 0⟩]) (some [1]))).1 (buildTable ([1] : List Nat) [1]) rfl,
   (c10_cache_before_cancellation fired
      (Session.mk ([1] : List Nat) [1] (some (buildTable ([1] : List Nat) [1]))
        (some [⟨0, 0⟩]) (some [1]))).2.2.2 [1] rfl⟩

end Golcs

namespace Golcs

section Idempotence

variable {α : Type} [DecidableEq α] [Inhabited α]

theorem table_caches (s : Session α) : ((Table s).2).table = some (Table s).1 := by
  unfold Table
  obtain ⟨t, s', h⟩ := tableContext_background_ok s
  rw [h]
  exact (tableContext_ok_caches h).1

theorem indexPairs_caches (s : Session α) :
    ((IndexPairs s).2).indexPairs = some (IndexPairs s).1 := by
  unfold IndexPairs
  obtain ⟨p, s', h⟩ := indexPairsContext_background_ok s
  rw [h]
  exact (indexPairsContext_ok_caches h).1

theorem values_caches (s : Session α) : ((Values s).2).values = some (Values s).1 := by
  unfold Values
  obtain ⟨v, s', h⟩ := valuesContext_background_ok s
  rw [h]
  exact valuesContext_ok_caches h

end Idempotence

/-- C7: calling `Table`, `IndexPairs` or `Values` twice on a session
returns identical results both times, and the second call is answered
from the session cache populated by the first call — each result is
computed at most once per session. -/
theorem c7_idempotent {α : Type} [DecidableEq α] [Inhabited α] (s : Session α) :
    Table ((Table s).2) = ((Table s).1, (Table s).2) ∧
    ((Table s).2).table = some (Table s).1 ∧
    IndexPairs ((IndexPairs s).2) = ((IndexPairs s).1, (IndexPairs s).2) ∧
    ((IndexPairs s).2).indexPairs = some (IndexPairs s).1 ∧
    Values ((Values s).2) = ((Values s).1, (Values s).2) ∧
    ((Values s).2).values = some (Values s).1 := by
  refine ⟨?_, table_caches s, ?_, indexPairs_caches s, ?_, values_caches s⟩
  · show (match TableContext background ((Table s).2) with
      | (Except.ok t, s') => (t, s')
      | (Except.error _, s') => ([], s')) = _
    rw [tableContext_cached (table_caches s)]
  · show (match IndexPairsContext background ((IndexPairs s).2) with
      | (Except.ok p, s') => (p, s')
      | (Except.error _, s') => ([], s')) = _
    rw [indexPairsContext_cached (indexPairs_caches s)]
  · show (match ValuesContext background ((Values s).2) with
      | (Except.ok v, s') => (v, s')
      | (Except.error _, s') => ([], s')) = _
    rw [valuesContext_cached (values_caches s)]

end Golcs
